import Mathlib

/-!
Shallow embedding of `src/main.py` (vim-or-emacs.ari.lt), a Flask vote
application. Votes are stored in an SQL table; the handlers below are
modelled as pure functions over an explicit vote store. Machine-level
details (Flask plumbing, templates, SQLAlchemy sessions) are modelled
only as far as the verified claims need them.
-/

/-- The `Editor` enum of the source: `vim = auto() = 1`, `emacs = auto() = 2`. -/
inductive Editor
  | vim
  | emacs
deriving DecidableEq, Repr

/-- `editor.value` of the Python enum member. -/
def Editor.value : Editor → Nat
  | .vim => 1
  | .emacs => 2

/-- `Editor.all()`: the tuple of all members, in declaration order. -/
def Editor.all : List Editor := [.vim, .emacs]

/-- The `Editor(n)` enum constructor: succeeds exactly on the values of
members, raises (here: `none`) otherwise. -/
def Editor.ofInt (n : Int) : Option Editor :=
  if n = 1 then some .vim else if n = 2 then some .emacs else none

/-- A row of the `Vote` table: integer primary key `id`, an `Editor`,
and the `voted` timestamp (modelled as an integer unix time). -/
structure Vote where
  id : Nat
  editor : Editor
  voted : Int
deriving DecidableEq, Repr

/-- Number of stored votes for editor `e`; the value of
`func.count(Vote.editor)` in the `group_by(Vote.editor)` row of `e`. -/
def countEditor (votes : List Vote) (e : Editor) : Nat :=
  (votes.filter (fun v => decide (v.editor = e))).length

/-- The `group_by(Vote.editor)` result of `index()`: one `(editor, count)`
row per editor that occurs in the store. The row order the database
returns is unspecified; it is fixed here as enum declaration order (the
final winner value is order-independent, since `index()` re-sorts by
count). -/
def editorCounts (votes : List Vote) : List (Editor × Nat) :=
  (Editor.all.map (fun e => (e, countEditor votes e))).filter (fun p => decide (0 < p.2))

/-- One step of a stable descending insertion sort on counts: insert `p`
before the first row whose count is strictly smaller, as Python's stable
`sorted(key=itemgetter(1), reverse=True)` orders rows. -/
def insertDesc (p : Editor × Nat) : List (Editor × Nat) → List (Editor × Nat)
  | [] => [p]
  | q :: qs => if q.2 < p.2 then p :: q :: qs else q :: insertDesc p qs

/-- `sorted(editor_counts, key=itemgetter(1), reverse=True)`: stable sort
by count, descending. -/
def sortCountsDesc (l : List (Editor × Nat)) : List (Editor × Nat) :=
  l.foldl (fun acc p => insertDesc p acc) []

/-- The winner computation of `index()`: zero grouped rows give
`(none, 0)`; a single row is returned as is; otherwise the two rows with
the largest counts decide — a strictly larger count wins, an equal count
is a tie `(none, tied count)`. -/
def winner (votes : List Vote) : Option Editor × Nat :=
  match editorCounts votes with
  | [] => (none, 0)
  | [p] => (some p.1, p.2)
  | ecs =>
    match (sortCountsDesc ecs).take 2 with
    | s0 :: s1 :: _ => if s1.2 < s0.2 then (some s0.1, s0.2) else (none, s0.2)
    | _ => (none, 0)

/-- The grouped rows are exactly the positive per-editor counts, in enum
order. -/
lemma editorCounts_eq (votes : List Vote) :
    editorCounts votes =
      (if 0 < countEditor votes .vim then [(Editor.vim, countEditor votes .vim)] else []) ++
      (if 0 < countEditor votes .emacs then [(Editor.emacs, countEditor votes .emacs)] else []) := by
  by_cases h1 : 0 < countEditor votes .vim <;>
    by_cases h2 : 0 < countEditor votes .emacs <;>
      simp [editorCounts, Editor.all, List.filter, h1, h2]

/-- CLAIM C1: the winner computation of the index view returns `(none, 0)`
with zero groups, the sole `(editor, count)` row with one group, the
strictly larger row with two unequal groups, and `(none, tied count)` on a
tie — a tie never selects an editor. -/
theorem winner_spec (votes : List Vote) :
    winner votes =
      if countEditor votes Editor.vim = 0 ∧ countEditor votes Editor.emacs = 0 then
        (none, 0)
      else if countEditor votes Editor.emacs = 0 then
        (some Editor.vim, countEditor votes Editor.vim)
      else if countEditor votes Editor.vim = 0 then
        (some Editor.emacs, countEditor votes Editor.emacs)
      else if countEditor votes Editor.emacs < countEditor votes Editor.vim then
        (some Editor.vim, countEditor votes Editor.vim)
      else if countEditor votes Editor.vim < countEditor votes Editor.emacs then
        (some Editor.emacs, countEditor votes Editor.emacs)
      else
        (none, countEditor votes Editor.vim) := by
  have h := editorCounts_eq votes
  rcases Nat.eq_zero_or_pos (countEditor votes .vim) with h1 | h1 <;>
    rcases Nat.eq_zero_or_pos (countEditor votes .emacs) with h2 | h2
  · simp [winner, h, h1, h2]
  · have e2 : countEditor votes Editor.emacs ≠ 0 := by omega
    simp [winner, h, h1, h2, e2]
  · have e1 : countEditor votes Editor.vim ≠ 0 := by omega
    simp [winner, h, h1, h2, e1]
  · have e1 : countEditor votes Editor.vim ≠ 0 := by omega
    have e2 : countEditor votes Editor.emacs ≠ 0 := by omega
    rcases Nat.lt_trichotomy (countEditor votes Editor.vim)
        (countEditor votes Editor.emacs) with hc | hc | hc
    · have hn : ¬ countEditor votes Editor.emacs < countEditor votes Editor.vim := by omega
      simp [winner, h, h1, h2, sortCountsDesc, insertDesc, e1, e2, hc, hn]
    · have hn1 : ¬ countEditor votes Editor.vim < countEditor votes Editor.emacs := by omega
      have hn2 : ¬ countEditor votes Editor.emacs < countEditor votes Editor.vim := by omega
      simp [winner, h, h1, h2, sortCountsDesc, insertDesc, e1, e2, hn1, hn2]
    · have hn : ¬ countEditor votes Editor.vim < countEditor votes Editor.emacs := by omega
      simp [winner, h, h1, h2, sortCountsDesc, insertDesc, e1, e2, hc, hn]

/-- `vote_counts[vote.editor.value] += 1` on the dict modelled as an
association list (Python dicts iterate in insertion order, and updating a
present key keeps its position). -/
def bumpCounts (m : List (Nat × Nat)) (k : Nat) : List (Nat × Nat) :=
  m.map (fun p => if p.1 = k then (p.1, p.2 + 1) else p)

/-- The `vote_counts` dict of `stats_json()`: initialised with
`{editor.value: 0 for editor in Editor.all()}`, then incremented once per
stored vote. -/
def statsVoteCounts (votes : List Vote) : List (Nat × Nat) :=
  votes.foldl (fun m v => bumpCounts m v.editor.value)
    (Editor.all.map (fun e => (e.value, 0)))

/-- Python `max(votes, key=lambda vote: vote.voted)`: the first element
with a maximal key (later elements replace the current one only on a
strictly greater key). -/
def pyMaxByVoted : List Vote → Option Vote
  | [] => none
  | v :: vs => some (vs.foldl (fun acc w => if acc.voted < w.voted then w else acc) v)

/-- Python `min(votes, key=lambda vote: vote.voted)`: the first element
with a minimal key. -/
def pyMinByVoted : List Vote → Option Vote
  | [] => none
  | v :: vs => some (vs.foldl (fun acc w => if w.voted < acc.voted then w else acc) v)

/-- The JSON body returned by `stats_json()`: `total`, the per-editor
`votes` dict, and the `latest`/`first` timestamps (`none` models JSON
null). -/
structure Stats where
  total : Nat
  counts : List (Nat × Nat)
  latest : Option Int
  first : Option Int
deriving DecidableEq, Repr

/-- `stats_json()` over the vote store. -/
def stats (votes : List Vote) : Stats :=
  { total := votes.length
    counts := statsVoteCounts votes
    latest := (pyMaxByVoted votes).map (fun v => v.voted)
    first := (pyMinByVoted votes).map (fun v => v.voted) }

lemma bumpCounts_foldl (vs : List Vote) (m : List (Nat × Nat)) :
    vs.foldl (fun m v => bumpCounts m v.editor.value) m =
      m.map (fun p => (p.1, p.2 + (vs.filter (fun v => decide (v.editor.value = p.1))).length)) := by
  induction vs generalizing m with
  | nil => simp
  | cons v vs ih =>
    rw [List.foldl_cons, ih, bumpCounts, List.map_map]
    apply List.map_congr_left
    intro p _
    by_cases hk : v.editor.value = p.1
    · simp [Function.comp, List.filter_cons, hk, Prod.ext_iff]
      omega
    · have hk2 : ¬ p.1 = v.editor.value := fun hh => hk hh.symm
      simp [Function.comp, List.filter_cons, hk, hk2]

/-- The `vote_counts` dict holds, for each member in declaration order,
exactly the number of stored votes for that member. -/
lemma statsVoteCounts_eq (votes : List Vote) :
    statsVoteCounts votes = Editor.all.map (fun e => (e.value, countEditor votes e)) := by
  rw [statsVoteCounts, bumpCounts_foldl, List.map_map]
  apply List.map_congr_left
  intro e _
  have : (votes.filter (fun v => decide (v.editor.value = e.value))).length =
      countEditor votes e := by
    unfold countEditor
    congr 1
    apply List.filter_congr
    intro v _
    cases v.editor <;> cases e <;> simp [Editor.value]
  simp [Function.comp, this]

lemma pyMaxFoldl_mem (vs : List Vote) (a : Vote) :
    vs.foldl (fun acc w => if acc.voted < w.voted then w else acc) a ∈ a :: vs := by
  induction vs generalizing a with
  | nil => simp
  | cons w ws ih =>
    rcases List.mem_cons.mp (ih (if a.voted < w.voted then w else a)) with h | h
    · rw [List.foldl_cons, h]
      by_cases hc : a.voted < w.voted <;> simp [hc]
    · rw [List.foldl_cons]
      exact List.mem_cons_of_mem _ (List.mem_cons_of_mem _ h)

lemma pyMaxFoldl_ge (vs : List Vote) (a : Vote) :
    a.voted ≤ (vs.foldl (fun acc w => if acc.voted < w.voted then w else acc) a).voted ∧
    ∀ w ∈ vs, w.voted ≤ (vs.foldl (fun acc w => if acc.voted < w.voted then w else acc) a).voted := by
  induction vs generalizing a with
  | nil => simp
  | cons w ws ih =>
    obtain ⟨ih1, ih2⟩ := ih (if a.voted < w.voted then w else a)
    rw [List.foldl_cons]
    refine ⟨?_, ?_⟩
    · refine le_trans ?_ ih1
      by_cases hc : a.voted < w.voted <;> simp [hc]
      exact le_of_lt hc
    · intro u hu
      rcases List.mem_cons.mp hu with h | h
      · subst h
        refine le_trans ?_ ih1
        by_cases hc : a.voted < u.voted <;> simp [hc]
        exact le_of_not_lt hc
      · exact ih2 u h

lemma pyMinFoldl_mem (vs : List Vote) (a : Vote) :
    vs.foldl (fun acc w => if w.voted < acc.voted then w else acc) a ∈ a :: vs := by
  induction vs generalizing a with
  | nil => simp
  | cons w ws ih =>
    rcases List.mem_cons.mp (ih (if w.voted < a.voted then w else a)) with h | h
    · rw [List.foldl_cons, h]
      by_cases hc : w.voted < a.voted <;> simp [hc]
    · rw [List.foldl_cons]
      exact List.mem_cons_of_mem _ (List.mem_cons_of_mem _ h)

lemma pyMinFoldl_le (vs : List Vote) (a : Vote) :
    (vs.foldl (fun acc w => if w.voted < acc.voted then w else acc) a).voted ≤ a.voted ∧
    ∀ w ∈ vs, (vs.foldl (fun acc w => if w.voted < acc.voted then w else acc) a).voted ≤ w.voted := by
  induction vs generalizing a with
  | nil => simp
  | cons w ws ih =>
    obtain ⟨ih1, ih2⟩ := ih (if w.voted < a.voted then w else a)
    rw [List.foldl_cons]
    refine ⟨?_, ?_⟩
    · refine le_trans ih1 ?_
      by_cases hc : w.voted < a.voted <;> simp [hc]
      exact le_of_lt hc
    · intro u hu
      rcases List.mem_cons.mp hu with h | h
      · subst h
        refine le_trans ih1 ?_
        by_cases hc : u.voted < a.voted <;> simp [hc]
        exact le_of_not_lt hc
      · exact ih2 u h

/-- Every vote is for one of the two members, so the two per-editor
counts partition the store. -/
lemma countEditor_add (votes : List Vote) :
    countEditor votes .vim + countEditor votes .emacs = votes.length := by
  induction votes with
  | nil => rfl
  | cons v vs ih =>
    cases hv : v.editor <;>
      simp [countEditor, List.filter_cons, hv] at ih ⊢ <;> omega

/-- CLAIM C2: `stats_json()` reports the exact number of stored votes as
`total`, a per-editor entry (with the exact count, possibly zero) for
every enum member, and `latest`/`first` equal to the maximum/minimum
`voted` timestamp over all stored votes, or null when the store is
empty. -/
theorem stats_spec (votes : List Vote) :
    (stats votes).total = votes.length ∧
    (∀ e : Editor, (e.value, countEditor votes e) ∈ (stats votes).counts) ∧
    ((stats votes).latest = none ↔ votes = []) ∧
    ((stats votes).first = none ↔ votes = []) ∧
    (∀ t, (stats votes).latest = some t →
      t ∈ votes.map Vote.voted ∧ ∀ s ∈ votes.map Vote.voted, s ≤ t) ∧
    (∀ t, (stats votes).first = some t →
      t ∈ votes.map Vote.voted ∧ ∀ s ∈ votes.map Vote.voted, t ≤ s) := by
  refine ⟨rfl, ?_, ?_, ?_, ?_, ?_⟩
  · intro e
    rw [stats, statsVoteCounts_eq]
    cases e <;> simp [Editor.all]
  · cases votes <;> simp [stats, pyMaxByVoted]
  · cases votes <;> simp [stats, pyMinByVoted]
  · intro t ht
    cases votes with
    | nil => simp [stats, pyMaxByVoted] at ht
    | cons v vs =>
      simp only [stats, pyMaxByVoted, Option.map_some'] at ht
      obtain ⟨hm1, hm2⟩ := pyMaxFoldl_ge vs v
      have hmem := pyMaxFoldl_mem vs v
      rw [Option.some_inj] at ht
      constructor
      · exact ht ▸ List.mem_map_of_mem Vote.voted hmem
      · intro s hs
        rcases List.mem_map.mp hs with ⟨u, hu, hsu⟩
        rcases List.mem_cons.mp hu with h | h
        · subst h; rw [← hsu, ← ht]; exact hm1
        · rw [← hsu, ← ht]; exact hm2 u h
  · intro t ht
    cases votes with
    | nil => simp [stats, pyMinByVoted] at ht
    | cons v vs =>
      simp only [stats, pyMinByVoted, Option.map_some'] at ht
      obtain ⟨hm1, hm2⟩ := pyMinFoldl_le vs v
      have hmem := pyMinFoldl_mem vs v
      rw [Option.some_inj] at ht
      constructor
      · exact ht ▸ List.mem_map_of_mem Vote.voted hmem
      · intro s hs
        rcases List.mem_map.mp hs with ⟨u, hu, hsu⟩
        rcases List.mem_cons.mp hu with h | h
        · subst h; rw [← hsu, ← ht]; exact hm1
        · rw [← hsu, ← ht]; exact hm2 u h

/-- Witness for `stats_spec` at a concrete two-vote store. -/
theorem stats_spec_witness :
    (3 : Int) ∈ ([⟨1, .vim, 5⟩, ⟨2, .emacs, 3⟩] : List Vote).map Vote.voted ∧
    ∀ s ∈ ([⟨1, .vim, 5⟩, ⟨2, .emacs, 3⟩] : List Vote).map Vote.voted, (3 : Int) ≤ s :=
  (stats_spec [⟨1, .vim, 5⟩, ⟨2, .emacs, 3⟩]).2.2.2.2.2 3 (by decide)

/-- CLAIM C7: the per-editor count values of `stats_json()` sum to the
reported total. -/
theorem stats_counts_sum (votes : List Vote) :
    ((stats votes).counts.map Prod.snd).sum = (stats votes).total := by
  rw [stats, statsVoteCounts_eq]
  simp [Editor.all]
  exact countEditor_add votes

/-- The whitespace characters Python's `int(str)` strips from both ends
(the ASCII ones; the model covers ASCII input). -/
def isPyWs (c : Char) : Bool :=
  c = ' ' || c = '\t' || c = '\n' || c = '\r' || c = '\x0b' || c = '\x0c'

/-- Strip leading and trailing whitespace. -/
def stripWs (s : List Char) : List Char :=
  ((s.dropWhile isPyWs).reverse.dropWhile isPyWs).reverse

/-- Digits after the first, as Python's `int` literal grammar reads them:
a single underscore may stand between two digits, nowhere else. -/
def pyDigitsAux : List Char → Nat → Option Nat
  | [], acc => some acc
  | '_' :: d :: cs, acc =>
    if d.isDigit then pyDigitsAux cs (acc * 10 + (d.toNat - '0'.toNat)) else none
  | ['_'], _ => none
  | c :: cs, acc =>
    if c.isDigit then pyDigitsAux cs (acc * 10 + (c.toNat - '0'.toNat)) else none

/-- A nonempty digit run with optional underscore grouping. -/
def pyDigits : List Char → Option Nat
  | c :: cs => if c.isDigit then pyDigitsAux cs (c.toNat - '0'.toNat) else none
  | [] => none

/-- Python's `int(s)` on a decimal string: strip whitespace on both ends,
one optional sign, then digits with optional underscore grouping; `none`
models the `ValueError` raised on anything else. -/
def pyInt (s : String) : Option Int :=
  match stripWs s.data with
  | '+' :: rest => (pyDigits rest).map (fun n => (n : Int))
  | '-' :: rest => (pyDigits rest).map (fun n => -(n : Int))
  | rest => (pyDigits rest).map (fun n => (n : Int))

example : pyInt "1" = some 1 := by decide
example : pyInt " +1 " = some 1 := by decide
example : pyInt "0_2" = some 2 := by decide
example : pyInt "-3" = some (-3) := by decide
example : pyInt "" = none := by decide
example : pyInt "vim" = none := by decide
example : pyInt "1.0" = none := by decide
example : pyInt "1_" = none := by decide
example : pyInt "+ 1" = none := by decide

/-- An SQLAlchemy session over the vote table: rows already committed and
rows added but not yet committed. -/
structure Session where
  committed : List Vote
  pending : List Vote
deriving DecidableEq, Repr

/-- `db.session.add(vote)`. -/
def sessionAdd (s : Session) (v : Vote) : Session :=
  { s with pending := s.pending ++ [v] }

/-- `db.session.commit()`: on success every pending row becomes durable;
on failure (`none`, the raised exception) nothing is committed. -/
def sessionCommit (s : Session) (ok : Bool) : Option Session :=
  if ok then some { committed := s.committed ++ s.pending, pending := [] } else none

/-- `db.session.rollback()`: discard all pending rows. -/
def sessionRollback (s : Session) : Session :=
  { s with pending := [] }

/-- Outcome of the `POST /` handler: a redirect to `/` carrying the
flashed confirmation for the recorded editor, or `flask.abort(code)`. -/
inductive VoteResult
  | redirect (ed : Editor)
  | httpError (code : Nat)
deriving DecidableEq, Repr

/-- The body of the `vote()` view (after the rate limiter has admitted
the request): read form field `voe`; empty or missing is a 400; a value
`int()` cannot parse, or whose number is no enum member, is a 400;
otherwise add and commit a new row, rolling back to a 500 on a commit
failure. `nextId` is the primary key the database assigns, `now` the
`voted` default timestamp, `commitOk` whether the underlying store can
commit. -/
def voteHandler (voe : Option String) (sess : Session) (nextId : Nat) (now : Int)
    (commitOk : Bool) : VoteResult × Session :=
  match voe with
  | none => (.httpError 400, sess)
  | some s =>
    if s = "" then (.httpError 400, sess)
    else
      match (pyInt s).bind Editor.ofInt with
      | none => (.httpError 400, sess)
      | some ed =>
        let sess1 := sessionAdd sess ⟨nextId, ed, now⟩
        match sessionCommit sess1 commitOk with
        | some sess2 => (.redirect ed, sess2)
        | none => (.httpError 500, sessionRollback sess1)

/-- The `1 per day` moving-window limit: the request at `now` is admitted
iff the client has no recorded hit in the trailing 24 hours (86400
seconds); an admitted request records a hit, a rejected one does not. -/
def limiterAllows (hits : List Int) (now : Int) : Bool :=
  (hits.filter (fun t => decide (now - t < 86400) && decide (0 ≤ now - t))).length < 1

/-- The full `POST /` endpoint: the limiter runs first and turns an
over-limit request into a 429 before the view body executes. -/
def votePost (hits : List Int) (voe : Option String) (sess : Session) (nextId : Nat)
    (now : Int) (commitOk : Bool) : VoteResult × List Int × Session :=
  if limiterAllows hits now then
    let r := voteHandler voe sess nextId now commitOk
    (r.1, now :: hits, r.2)
  else
    (.httpError 429, hits, sess)

lemma pyInt_empty : pyInt "" = none := by decide

/-- CLAIM C3: a submission with a missing, empty, unparsable, or
out-of-enumeration `voe` is rejected with a 400 and leaves the session —
committed and pending rows alike — untouched. -/
theorem vote_bad_request (sess : Session) (nextId : Nat) (now : Int) (commitOk : Bool) :
    voteHandler none sess nextId now commitOk = (.httpError 400, sess) ∧
    voteHandler (some "") sess nextId now commitOk = (.httpError 400, sess) ∧
    (∀ s : String, pyInt s = none →
      voteHandler (some s) sess nextId now commitOk = (.httpError 400, sess)) ∧
    (∀ (s : String) (n : Int), pyInt s = some n → Editor.ofInt n = none →
      voteHandler (some s) sess nextId now commitOk = (.httpError 400, sess)) := by
  refine ⟨rfl, rfl, ?_, ?_⟩
  · intro s hs
    by_cases he : s = "" <;> simp [voteHandler, he, hs]
  · intro s n h1 h2
    have he : s ≠ "" := by
      intro he
      rw [he, pyInt_empty] at h1
      exact Option.noConfusion h1
    simp [voteHandler, he, h1, h2]

/-- Witness for `vote_bad_request`: `voe=99` is out of range, is refused
with a 400, and stores nothing. -/
theorem vote_bad_request_witness :
    voteHandler (some "99") ⟨[], []⟩ 1 0 true = (.httpError 400, ⟨[], []⟩) :=
  (vote_bad_request ⟨[], []⟩ 1 0 true).2.2.2 "99" 99 (by decide) (by decide)

/-- CLAIM C4: when the commit fails, the handler rolls the session back
and aborts with a 500: the committed rows are exactly the ones from
before the request and no pending row survives — the append is
all-or-nothing. -/
theorem vote_storage_failure (s : String) (n : Int) (ed : Editor) (sess : Session)
    (nextId : Nat) (now : Int)
    (h1 : pyInt s = some n) (h2 : Editor.ofInt n = some ed) :
    voteHandler (some s) sess nextId now false =
      (.httpError 500, ⟨sess.committed, []⟩) := by
  have he : s ≠ "" := by
    intro he
    rw [he, pyInt_empty] at h1
    exact Option.noConfusion h1
  simp [voteHandler, he, h1, h2, sessionAdd, sessionCommit, sessionRollback]

/-- Witness for `vote_storage_failure` at a concrete vim vote. -/
theorem vote_storage_failure_witness :
    voteHandler (some "1") ⟨[⟨1, .emacs, 0⟩], []⟩ 2 5 false =
      (.httpError 500, ⟨[⟨1, .emacs, 0⟩], []⟩) :=
  vote_storage_failure "1" 1 .vim ⟨[⟨1, .emacs, 0⟩], []⟩ 2 5 (by decide) (by decide)

/-- CLAIM C10: any non-empty `voe` that Python's `int()` parses to the
value of an enum member is accepted — surrounding whitespace, an explicit
sign, or underscore digit grouping included — and commits exactly one new
row for that member. -/
theorem vote_accepts_pyint (s : String) (n : Int) (ed : Editor) (sess : Session)
    (nextId : Nat) (now : Int)
    (hne : s ≠ "") (h1 : pyInt s = some n) (h2 : Editor.ofInt n = some ed) :
    voteHandler (some s) sess nextId now true =
      (.redirect ed, ⟨sess.committed ++ (sess.pending ++ [⟨nextId, ed, now⟩]), []⟩) := by
  simp [voteHandler, hne, h1, h2, sessionAdd, sessionCommit]

/-- Witness for `vote_accepts_pyint`: `voe=" +1 "` is accepted as a vim
vote. -/
theorem vote_accepts_pyint_witness :
    voteHandler (some " +1 ") ⟨[], []⟩ 1 7 true =
      (.redirect .vim, ⟨[⟨1, .vim, 7⟩], []⟩) :=
  vote_accepts_pyint " +1 " 1 .vim ⟨[], []⟩ 1 7 (by decide) (by decide) (by decide)

/-- CLAIM C5: once a client's submission has been accepted at `t0`, any
further submission in the following 24 hours is answered with a 429 and
changes neither the limiter state nor the session, whatever `voe` it
carries. -/
theorem vote_rate_limited (hits0 hits1 : List Int) (voe0 voe : Option String)
    (sess0 sess1 sess : Session) (id0 nid : Nat) (t0 now : Int) (ok0 ok : Bool)
    (ed0 : Editor)
    (hacc : votePost hits0 voe0 sess0 id0 t0 ok0 = (.redirect ed0, hits1, sess1))
    (hle : t0 ≤ now) (hlt : now < t0 + 86400) :
    votePost hits1 voe sess nid now ok = (.httpError 429, hits1, sess) := by
  cases hb : limiterAllows hits0 t0 with
  | false => simp [votePost, hb] at hacc
  | true =>
    simp only [votePost, hb, if_true] at hacc
    have hh : hits1 = t0 :: hits0 := by
      have h2 := congrArg (fun p => p.2.1) hacc
      simpa using h2.symm
    have c1 : now - t0 < 86400 := by omega
    have c2 : (0 : Int) ≤ now - t0 := by omega
    have hdeny : limiterAllows hits1 now = false := by
      rw [hh]
      simp [limiterAllows, List.filter_cons, c1, c2, hle]
    simp [votePost, hdeny]

/-- Witness for `vote_rate_limited`: a vote accepted at time 0 blocks a
second attempt at time 100. -/
theorem vote_rate_limited_witness :
    votePost [(0 : Int)] (some "2") ⟨[⟨1, .vim, 0⟩], []⟩ 2 100 true =
      (.httpError 429, [(0 : Int)], ⟨[⟨1, .vim, 0⟩], []⟩) :=
  vote_rate_limited [] [0] (some "1") (some "2") ⟨[], []⟩ ⟨[⟨1, .vim, 0⟩], []⟩
    ⟨[⟨1, .vim, 0⟩], []⟩ 1 2 0 100 true true .vim (by decide) (by decide) (by decide)

/-- The `Vote.id >= from_id` filter, present only when the `from` query
parameter parsed to an integer. -/
def matchFrom (fromId : Option Int) (v : Vote) : Bool :=
  match fromId with
  | some f => decide (f ≤ (v.id : Int))
  | none => true

/-- The `Vote.id <= to_id` filter, present only when `to` parsed. -/
def matchTo (toId : Option Int) (v : Vote) : Bool :=
  match toId with
  | some t => decide ((v.id : Int) ≤ t)
  | none => true

/-- The `Vote.editor == Editor(editor)` filter: applied when the `editor`
parameter parsed to an integer that is a member value; a non-member
integer raises inside the `try`, is swallowed by `except: pass`, and the
filter is dropped. -/
def matchEd (edq : Option Int) (v : Vote) : Bool :=
  match edq with
  | some e =>
    match Editor.ofInt e with
    | some ed => decide (v.editor = ed)
    | none => true
  | none => true

/-- The conjunction of the accumulated `filters` list of `votes_json()`. -/
def voteMatches (fromId toId edq : Option Int) (v : Vote) : Bool :=
  matchFrom fromId v && matchTo toId v && matchEd edq v

/-- `votes_json()`: the store restricted to the supplied filters, each
row rendered as `id ↦ (editor.value, voted timestamp)` in store order
(the Python dict keeps insertion order; ids are unique primary keys). -/
def votesJson (store : List Vote) (fromId toId edq : Option Int) :
    List (Nat × Nat × Int) :=
  (store.filter (voteMatches fromId toId edq)).map (fun v => (v.id, v.editor.value, v.voted))

lemma matchFrom_iff (fromId : Option Int) (v : Vote) :
    matchFrom fromId v = true ↔ ∀ f, fromId = some f → f ≤ (v.id : Int) := by
  cases fromId <;> simp [matchFrom]

lemma matchTo_iff (toId : Option Int) (v : Vote) :
    matchTo toId v = true ↔ ∀ t, toId = some t → (v.id : Int) ≤ t := by
  cases toId <;> simp [matchTo]

lemma matchEd_iff (edq : Option Int) (v : Vote) :
    matchEd edq v = true ↔
      ∀ n ed, edq = some n → Editor.ofInt n = some ed → v.editor = ed := by
  cases edq with
  | none => simp [matchEd]
  | some n =>
    cases ho : Editor.ofInt n with
    | none =>
      simp only [matchEd, ho, true_iff]
      intro n1 ed h1 h2
      obtain rfl : n = n1 := Option.some.inj h1
      rw [ho] at h2
      exact Option.noConfusion h2
    | some ed0 =>
      simp only [matchEd, ho, decide_eq_true_eq]
      constructor
      · intro hv n1 ed h1 h2
        obtain rfl : n = n1 := Option.some.inj h1
        rw [ho] at h2
        exact Option.some.inj h2 ▸ hv
      · intro hall
        exact hall n ed0 rfl ho

/-- CLAIM C6: `votes_json()` returns exactly the stored votes that meet
every supplied filter, as `(id, editor value, timestamp)` rows; in
particular `editor=1` only returns vim votes and `from=5&to=10` only
returns ids in `[5, 10]`. -/
theorem votes_json_spec (store : List Vote) (fromId toId edq : Option Int) :
    (∀ p, p ∈ votesJson store fromId toId edq ↔
      ∃ v ∈ store, p = (v.id, v.editor.value, v.voted) ∧
        (∀ f, fromId = some f → f ≤ (v.id : Int)) ∧
        (∀ t, toId = some t → (v.id : Int) ≤ t) ∧
        (∀ n ed, edq = some n → Editor.ofInt n = some ed → v.editor = ed)) ∧
    (∀ p ∈ votesJson store fromId toId (some 1), p.2.1 = Editor.vim.value) ∧
    (∀ p ∈ votesJson store (some 5) (some 10) edq,
      5 ≤ (p.1 : Int) ∧ (p.1 : Int) ≤ 10) := by
  have hmain : ∀ (f t e : Option Int) (p : Nat × Nat × Int),
      p ∈ votesJson store f t e ↔
        ∃ v ∈ store, p = (v.id, v.editor.value, v.voted) ∧
          (∀ a, f = some a → a ≤ (v.id : Int)) ∧
          (∀ a, t = some a → (v.id : Int) ≤ a) ∧
          (∀ n ed, e = some n → Editor.ofInt n = some ed → v.editor = ed) := by
    intro f t e p
    constructor
    · intro hp
      rcases List.mem_map.mp hp with ⟨v, hv, hpv⟩
      have hf := List.mem_filter.mp hv
      have hm := hf.2
      simp only [voteMatches, Bool.and_eq_true] at hm
      exact ⟨v, hf.1, hpv.symm, (matchFrom_iff f v).mp hm.1.1,
        (matchTo_iff t v).mp hm.1.2, (matchEd_iff e v).mp hm.2⟩
    · rintro ⟨v, hv, hpv, hfr, hto, hed⟩
      refine List.mem_map.mpr ⟨v, List.mem_filter.mpr ⟨hv, ?_⟩, hpv.symm⟩
      simp only [voteMatches, Bool.and_eq_true]
      exact ⟨⟨(matchFrom_iff f v).mpr hfr, (matchTo_iff t v).mpr hto⟩,
        (matchEd_iff e v).mpr hed⟩
  refine ⟨hmain fromId toId edq, ?_, ?_⟩
  · intro p hp
    rcases (hmain fromId toId (some 1) p).mp hp with ⟨v, -, hpv, -, -, hed⟩
    have : v.editor = Editor.vim := hed 1 Editor.vim rfl rfl
    rw [hpv, this]
  · intro p hp
    rcases (hmain (some 5) (some 10) edq p).mp hp with ⟨v, -, hpv, hfr, hto, -⟩
    rw [hpv]
    exact ⟨hfr 5 rfl, hto 10 rfl⟩

/-- Witness for `votes_json_spec`: a concrete filtered query. -/
theorem votes_json_spec_witness :
    ((6, 1, 3) : Nat × Nat × Int) ∈
      votesJson [⟨2, .emacs, 1⟩, ⟨6, .vim, 3⟩, ⟨12, .vim, 9⟩] (some 5) (some 10) (some 1) :=
  ((votes_json_spec [⟨2, .emacs, 1⟩, ⟨6, .vim, 3⟩, ⟨12, .vim, 9⟩]
      (some 5) (some 10) (some 1)).1 (6, 1, 3)).mpr
    ⟨⟨6, .vim, 3⟩, by decide, by decide,
      fun f hf => by cases hf; decide,
      fun t ht => by cases ht; decide,
      fun n ed hn he => by
        cases hn
        rw [show Editor.ofInt 1 = some Editor.vim from rfl] at he
        cases he
        rfl⟩

/-- CLAIM C8: an `editor` filter value that is an integer but no member
value is silently dropped — the query behaves exactly as if no editor
filter had been supplied. -/
theorem votes_json_bad_editor_filter (store : List Vote) (fromId toId : Option Int)
    (n : Int) (h : Editor.ofInt n = none) :
    votesJson store fromId toId (some n) = votesJson store fromId toId none := by
  unfold votesJson
  congr 1
  apply List.filter_congr
  intro v _
  simp [voteMatches, matchEd, h]

/-- Witness for `votes_json_bad_editor_filter` at `editor=99`. -/
theorem votes_json_bad_editor_filter_witness :
    votesJson [⟨1, .vim, 0⟩, ⟨2, .emacs, 1⟩] (some 2) none (some 99) =
      votesJson [⟨1, .vim, 0⟩, ⟨2, .emacs, 1⟩] (some 2) none none :=
  votes_json_bad_editor_filter [⟨1, .vim, 0⟩, ⟨2, .emacs, 1⟩] (some 2) none 99 (by decide)

/-- A response the error handler can produce: the rendered `http.j2`
template page (carrying code, summary, and description) or a plain-text
body. -/
inductive ErrResp
  | page (code : Nat) (summary : String) (description : String)
  | plain (body : String)
deriving DecidableEq, Repr

/-- Whether a response is the generic template page. -/
def ErrResp.isPage : ErrResp → Bool
  | page .. => true
  | plain _ => false

/-- `error_handler(e)`: for a 429 it sleeps `random() * 15` seconds and
answers with a plain-text body; every other code renders the `http.j2`
page with the code, the lower-cased exception name as summary, and the
(defaulted) lower-cased description, at status `e.code or 200`. `code`,
`name` and `desc` model `e.code`, `e.name` and `e.description`; `r` is
the `SystemRandom().random()` draw in `[0, 1)`. The result is
`(delay seconds, response body, status)`. -/
def errorHandler (code : Nat) (name : String) (desc : Option String) (r : ℚ) :
    ℚ × ErrResp × Nat :=
  if code = 429 then
    (r * 15, .plain ("too many requests : " ++ desc.getD "<limit>"), 429)
  else
    (0,
      .page code name.toLower ((desc.getD ("http error code " ++ toString code)).toLower),
      if code = 0 then 200 else code)

/-- Counterexample to CLAIM C9 as stated: a 429 is not rendered as the
generic error page — the handler answers it with a plain-text body
instead of the `http.j2` template. -/
theorem error_handler_429_not_page :
    ((errorHandler 429 "Too Many Requests" none (1/2)).2.1).isPage = false := by
  rfl

/-- CLAIM C9 (amended): every unhandled HTTP error other than a 429
renders the generic error page carrying the numeric code, the lower-cased
name as summary, and a description, with no delay; a 429 instead gets a
plain-text too-many-requests body preceded by a randomized delay of `r *
15 ∈ [0, 15)` seconds. -/
theorem error_handler_spec (code : Nat) (name : String) (desc : Option String) (r : ℚ)
    (hr0 : 0 ≤ r) (hr1 : r < 1) :
    (code ≠ 429 →
      errorHandler code name desc r =
        (0,
          .page code name.toLower
            ((desc.getD ("http error code " ++ toString code)).toLower),
          if code = 0 then 200 else code)) ∧
    (code = 429 →
      errorHandler code name desc r =
        (r * 15, .plain ("too many requests : " ++ desc.getD "<limit>"), 429) ∧
      0 ≤ r * 15 ∧ r * 15 < 15) := by
  constructor
  · intro h
    simp [errorHandler, h]
  · intro h
    subst h
    refine ⟨by simp [errorHandler], by positivity, ?_⟩
    nlinarith

/-- Witness for `error_handler_spec` at a concrete 429 with `r = 1/2`. -/
theorem error_handler_spec_witness :
    errorHandler 429 "Too Many Requests" none (1/2) =
      ((1/2 : ℚ) * 15, .plain ("too many requests : " ++ (none : Option String).getD "<limit>"),
        429) ∧
    (0 : ℚ) ≤ (1/2 : ℚ) * 15 ∧ (1/2 : ℚ) * 15 < 15 :=
  (error_handler_spec 429 "Too Many Requests" none (1/2) (by norm_num) (by norm_num)).2 rfl

example : winner [] = (none, 0) := by decide
example : winner [⟨1, .emacs, 0⟩] = (some .emacs, 1) := by decide
example : winner [⟨1, .vim, 0⟩, ⟨2, .vim, 1⟩, ⟨3, .vim, 2⟩, ⟨4, .emacs, 3⟩] =
    (some .vim, 3) := by decide
example : winner [⟨1, .vim, 0⟩, ⟨2, .vim, 1⟩, ⟨3, .emacs, 2⟩, ⟨4, .emacs, 3⟩] =
    (none, 2) := by decide
